import Mathlib

/-!
Shallow embedding of the av-pipeline-tracker log-parsing core.

Python strings are modelled as Lean `String` (or `List Char` where the code
manipulates individual code points), `datetime` values by their Unix epoch
second (`Int`; `datetime.fromtimestamp` is the canonical bijection between
epoch seconds and local datetimes, so we keep the epoch value), `timedelta`
values by their signed length in seconds (`Int`), and fallible Python code
(uncaught exceptions) by `Except String`.
-/

namespace Tracker

/-- Whitespace characters recognised by Python's `str.split()` and `str.strip()`
(ASCII subset; the log files are ASCII). -/
def pyIsSpace (c : Char) : Bool :=
  c = ' ' || c = '\t' || c = '\n' || c = '\r' || c = '\x0b' || c = '\x0c'

/-- Python `str.split(sep)` for a one-character separator `sep`, on the
code-point list: split at every occurrence of `sep`, keeping empty pieces.
Always returns a non-empty list (`[cs]` when `sep` does not occur). -/
def splitOnChar (sep : Char) : List Char → List (List Char)
  | [] => [[]]
  | c :: cs =>
    if c = sep then [] :: splitOnChar sep cs
    else
      match splitOnChar sep cs with
      | [] => [[c]]
      | g :: gs => (c :: g) :: gs

/-- Python's substring containment test `pat in s` on code-point lists. -/
def substrAux (pat : List Char) : List Char → Bool
  | [] => pat.isEmpty
  | c :: cs => pat.isPrefixOf (c :: cs) || substrAux pat cs

/-- Python's substring containment test `pat in s`. -/
def containsSubstr (s pat : String) : Bool :=
  substrAux pat.data s.data

/-- Numeric value of a list of decimal digit characters (most significant
first), as read by Python's `int`. -/
def natOfDigits (cs : List Char) : Nat :=
  cs.foldl (fun a c => a * 10 + (c.toNat - 48)) 0

/-- Python `str.split()` with no argument: split on runs of whitespace and
drop empty pieces. -/
def pySplitWs (s : String) : List String :=
  ((s.data.splitOnP pyIsSpace).filter (fun g => !g.isEmpty)).map String.mk

/-- A field of one or two decimal digits, as matched by `strptime`'s
`%H` / `%M` / `%S` directives. -/
def twoDigitField (s : List Char) : Bool :=
  (s.length = 1 || s.length = 2) && s.all Char.isDigit

/-- `datetime.strptime(tok, "%H:%M:%S")`, reduced to the second-of-day it
denotes: three `:`-separated fields of one or two digits, hour at most 23,
minute at most 59, second at most 61 (`strptime` accepts leap seconds), and
the whole token must be consumed. `none` models the `ValueError` raised on a
mismatch. -/
def parseHMS (tok : String) : Option Nat :=
  match splitOnChar ':' tok.data with
  | [h, m, s] =>
    if twoDigitField h && twoDigitField m && twoDigitField s
        && natOfDigits h ≤ 23 && natOfDigits m ≤ 59 && natOfDigits s ≤ 61
    then some (natOfDigits h * 3600 + natOfDigits m * 60 + natOfDigits s)
    else none
  | _ => none

/-- Acceptor for the tail of a Python integer literal body: decimal digits
with single underscores allowed only between digits. -/
def pyDigitsCore : List Char → Bool
  | [] => true
  | c :: rest =>
    if c = '_' then
      match rest with
      | [] => false
      | c2 :: rest2 => c2.isDigit && pyDigitsCore rest2
    else c.isDigit && pyDigitsCore rest

/-- Acceptor for the body of a Python integer literal: non-empty, starts with
a digit, single underscores only between digits. -/
def pyDigitsOk : List Char → Bool
  | [] => false
  | c :: rest => c.isDigit && pyDigitsCore rest

/-- Python `str.strip()` on a code-point list. -/
def pyStrip (cs : List Char) : List Char :=
  (((cs.dropWhile pyIsSpace).reverse.dropWhile pyIsSpace).reverse)

/-- Python `int(s)` on a code-point list: strip whitespace, optional sign,
digits with single underscores between digits. `none` models the
`ValueError` raised on anything else. -/
def pyIntChars (cs : List Char) : Option Int :=
  match pyStrip cs with
  | [] => none
  | c :: rest =>
    if c = '+' then
      if pyDigitsOk rest then some ((natOfDigits (rest.filter Char.isDigit) : Int)) else none
    else if c = '-' then
      if pyDigitsOk rest then some (-(natOfDigits (rest.filter Char.isDigit) : Int)) else none
    else
      if pyDigitsOk (c :: rest) then
        some ((natOfDigits ((c :: rest).filter Char.isDigit) : Int))
      else none

/-- `True` exactly on `Except.error`, the model of an uncaught exception. -/
def isErr {ε α : Type} : Except ε α → Bool
  | .error _ => true
  | .ok _ => false

/-! ## `tracker/logs/parser.py` -/

/-- `line.split()[2]` with `None` for the `IndexError` case: the third
whitespace-delimited token of a line, if it exists. -/
def thirdToken (line : String) : Option String :=
  (pySplitWs line)[2]?

/-- `parser.get_runtime`: filter the lines containing `"Current time"`; with
no match return a zero duration; otherwise take the third whitespace token of
the first and of the last matching line, parse both as `%H:%M:%S`, and return
last minus first in seconds. Errors model the uncaught `IndexError` (fewer
than three tokens) and `ValueError` (token does not parse). -/
def get_runtime (lines : List String) : Except String Int :=
  match lines.filter (fun l => containsSubstr l "Current time") with
  | [] => .ok 0
  | f :: rest =>
    match thirdToken f with
    | none => .error "IndexError"
    | some ftok =>
      match thirdToken ((f :: rest).getLast (List.cons_ne_nil f rest)) with
      | none => .error "IndexError"
      | some ltok =>
        match parseHMS ftok with
        | none => .error "ValueError"
        | some t1 =>
          match parseHMS ltok with
          | none => .error "ValueError"
          | some t2 => .ok ((t2 : Int) - (t1 : Int))

/-- The segment `file.name.split("_")[-1].split(".")[0]` extracted by
`get_datetime_from_filename`: `Path(file).name` is the part after the last
path separator; the splits never yield an empty list, so the Python
indexings cannot fail. -/
def timestampSegment (file : String) : List Char :=
  let nameData := (splitOnChar '/' file.data).getLastD []
  let lastUnd := (splitOnChar '_' nameData).getLastD []
  (splitOnChar '.' lastUnd).headD []

/-- `parser.get_datetime_from_filename`: take the digits between the last
underscore of the file's name and the following dot, convert them with
Python `int`, and return `datetime.fromtimestamp` of that epoch second
(modelled by the epoch second itself). The error models the uncaught
`ValueError` from `int` on a non-integer segment. -/
def get_datetime_from_filename (file : String) : Except String Int :=
  match pyIntChars (timestampSegment file) with
  | none => .error "ValueError"
  | some n => .ok n

/-- `parser.get_error`: `"Empty log file"` for a file with zero lines, else
`"Python Error"` when some line contains `"ERROR:"` or `"Traceback"`, else
`"Pipeline Rejected"` when some line contains `"Exiting, please requeue"`,
else `none`. -/
def get_error (lines : List String) : Option String :=
  if lines.length = 0 then some "Empty log file"
  else
    let error_lines := lines.filter
      (fun l => containsSubstr l "ERROR:" || containsSubstr l "Traceback")
    if error_lines.length > 0 then some "Python Error"
    else
      let pipeline_rejection := lines.filter
        (fun l => containsSubstr l "Exiting, please requeue")
      if pipeline_rejection.length > 0 then some "Pipeline Rejected"
      else none

/-! ## `tracker/helpers/utils.py` -/

/-- Boolean lexicographic (code-point) comparison of code-point lists:
`charListLe x y` is Python's `x <= y` on the underlying strings. -/
def charListLe : List Char → List Char → Bool
  | [], _ => true
  | _ :: _, [] => false
  | a :: as, b :: bs =>
    if a < b then true
    else if b < a then false
    else charListLe as bs

/-- The lexicographic (byte/code-point) order on path strings under which
Python's `list.sort` arranges the candidate `Path`s: `glob` hands
`get_most_recent_file` already-normalised path strings, on which `pathlib`
comparison is the comparison of the path strings themselves. -/
def pyLe (a b : String) : Prop := charListLe a.data b.data = true

instance : DecidableRel pyLe := fun a b =>
  inferInstanceAs (Decidable (charListLe a.data b.data = true))

/-- `utils.get_most_recent_file`: sort the candidate paths ascending (Python's
stable sort; stability is irrelevant here because the order is antisymmetric)
and take the last element. The error models the `IndexError` of
`file_paths[-1]` on an empty list. -/
def get_most_recent_file (files : List String) : Except String String :=
  match (List.insertionSort pyLe files).getLast? with
  | some f => .ok f
  | none => .error "IndexError"

/-- The Python slice `s[-2:]` used for the site id: the last two code points,
or the whole string when it has fewer than two. -/
def lastTwo (s : String) : String :=
  String.mk (s.data.drop (s.data.length - 2))

/-! ## `tracker/scripts/track_logs.py` -/

/-- The `TaskResults` record assembled per (site, subtask) pair. Durations
and datetimes are modelled in seconds as in the parser above. -/
structure TaskResults where
  task : String
  subtask : String
  site_id : String
  runtime : Int
  status : String
  last_run : Int
  logs : String
deriving DecidableEq, Repr

/-- The file-system environment the aggregator runs against: `glob` maps a
glob pattern (relative to the site's log directory) to the matching file
paths, `readLines` maps a file path to its lines. -/
structure SiteFS where
  glob : String → List String
  readLines : String → List String

/-- The glob pattern `f"{subtask}_*.txt"` used for one subtask. -/
def globPattern (subtask : String) : String :=
  subtask ++ "_*.txt"

/-- The fixed `offsite_subtasks` list of `track_site_logs`. -/
def offsite_subtasks : List String :=
  ["audio_process", "transcript_process", "video_process"]

/-- The fixed `diary_subtasks` list of `track_site_logs`. -/
def diary_subtasks : List String :=
  ["audio_process", "transcript_process"]

/-- The subtask list `track_site_logs` selects for a task category, `none`
for the `ValueError` branch on an unrecognised category. -/
def requiredSubtasks (task : String) : Option (List String) :=
  if task = "offsite" then some offsite_subtasks
  else if task = "daily_journal" then some diary_subtasks
  else none

/-- Modelled from the spec: `parser.get_logs` is called by the aggregator but
is absent from the available sources; the spec describes its result only as
the raw log excerpt attached to the status cell as a note. We model it as the
raw text of the log's lines; no claim depends on its value. -/
def get_logs (lines : List String) : String :=
  String.join lines

/-- The body of the per-subtask loop of `track_site_logs`: glob for the
subtask's logs (zero matches raise `FileNotFoundError`), pick the most recent
log, extract runtime, run timestamp and status (a `none` status is rendered
as `"No errors"`), and assemble a `TaskResults`. Any error aborts the whole
site's tracking pass. -/
def processSubtask (fs : SiteFS) (task site_id subtask : String) :
    Except String TaskResults :=
  let pattern := fs.glob (globPattern subtask)
  if pattern.isEmpty then
    .error ("No logs found for " ++ subtask)
  else
    match get_most_recent_file pattern with
    | .error e => .error e
    | .ok recent =>
      let lines := fs.readLines recent
      match get_runtime lines with
      | .error e => .error e
      | .ok runtime =>
        match get_datetime_from_filename recent with
        | .error e => .error e
        | .ok run_time =>
          let status :=
            match get_error lines with
            | none => "No errors"
            | some s => s
          .ok { task := task, subtask := subtask, site_id := site_id,
                runtime := runtime, status := status, last_run := run_time,
                logs := get_logs lines }

/-- The accumulation of the per-subtask loop: process the subtasks in order,
collecting one `TaskResults` each; the first error aborts the loop. -/
def mapResults (f : String → Except String TaskResults) :
    List String → Except String (List TaskResults)
  | [] => .ok []
  | s :: rest =>
    match f s with
    | .error e => .error e
    | .ok r =>
      match mapResults f rest with
      | .error e => .error e
      | .ok rs => .ok (r :: rs)

/-- `track_site_logs`: derive the site id as the last two characters of the
site directory's name, select the subtask list for the task category
(`ValueError` on an unrecognised one), and run the per-subtask loop. The
resulting list is handed to `log_to_sheet` by the caller's global state. -/
def track_site_logs (fs : SiteFS) (task site_name : String) :
    Except String (List TaskResults) :=
  let site_id := lastTwo site_name
  match requiredSubtasks task with
  | none => .error ("Invalid task: " ++ task)
  | some subtasks => mapResults (processSubtask fs task site_id) subtasks

/-- One spreadsheet mutation issued by `log_to_sheet`. -/
inductive SheetOp where
  | cell (row col : Nat) (value : String)
  | note (row col : Nat) (text : String)
deriving DecidableEq, Repr

/-- The per-iteration `sub_tasks_col_idx` table of `log_to_sheet`, selected
from the enclosing-scope `task` variable; the error models the
`NotImplementedError` raised for any other task. -/
def subtaskColIdx (task : String) : Except String (List (String × Nat)) :=
  if task = "offsite" then
    .ok [("audio_process", 7), ("transcript_process", 10), ("video_process", 13)]
  else if task = "daily_journal" then
    .ok [("audio_process", 20), ("transcript_process", 23)]
  else .error ("Task: " ++ task ++ " not implemented")

/-- `log_to_sheet`: for each record, look up the row by the record's site id,
select the column table from the ambient `task` (a module-global in the
script, not the record's own `task` field), look up the subtask's base
column (`KeyError` on a miss), and write the status cell, its note, the
last-run cell and the runtime cell. `rowOf` abstracts the spreadsheet row
lookup; `str(...)` rendering of model values is their canonical rendering.
Writes already issued before an abort are not tracked. -/
def log_to_sheet (rowOf : String → Nat) (task : String) :
    List TaskResults → Except String (List SheetOp)
  | [] => .ok []
  | r :: rest =>
    let row_idx := rowOf r.site_id
    match subtaskColIdx task with
    | .error e => .error e
    | .ok table =>
      match table.lookup r.subtask with
      | none => .error "KeyError"
      | some col =>
        match log_to_sheet rowOf task rest with
        | .error e => .error e
        | .ok ops =>
          .ok ([SheetOp.cell row_idx col r.status,
                SheetOp.note row_idx col r.logs,
                SheetOp.cell row_idx (col + 1) (toString r.last_run),
                SheetOp.cell row_idx (col + 2) (toString r.runtime)] ++ ops)

/-! ## `tracker/scripts/track_lochness.py` -/

/-- `check_if_within_threshold`: the configured threshold is an integer
number of hours (`timedelta(hours=threshold)` is `threshold * 3600`
seconds); `now` and `last_run` are datetimes modelled by their epoch
seconds. Returns `true` exactly when `now - last_run` is strictly below the
threshold. -/
def check_if_within_threshold (threshold : Int) (now last_run : Int) : Bool :=
  if now - last_run < threshold * 3600 then true else false

instance {ε α : Type} [DecidableEq ε] [DecidableEq α] : DecidableEq (Except ε α) := fun a b =>
  match a, b with
  | .ok x, .ok y => decidable_of_iff (x = y) (by simp)
  | .ok _, .error _ => isFalse (by simp)
  | .error _, .ok _ => isFalse (by simp)
  | .error e, .error f => decidable_of_iff (e = f) (by simp)

/-! ## Properties of the lexicographic path order -/

theorem charListLe_refl : ∀ cs : List Char, charListLe cs cs = true
  | [] => rfl
  | c :: cs => by simp [charListLe, lt_irrefl, charListLe_refl cs]

theorem charListLe_total : ∀ x y : List Char, charListLe x y = true ∨ charListLe y x = true
  | [], _ => Or.inl rfl
  | _ :: _, [] => Or.inr rfl
  | a :: as, b :: bs => by
    rcases lt_trichotomy a b with h | h | h
    · left; simp [charListLe, h]
    · subst h
      rcases charListLe_total as bs with ih | ih
      · left; simp [charListLe, lt_irrefl, ih]
      · right; simp [charListLe, lt_irrefl, ih]
    · right; simp [charListLe, h]

theorem charListLe_trans :
    ∀ x y z : List Char, charListLe x y = true → charListLe y z = true →
      charListLe x z = true
  | [], _, _, _, _ => rfl
  | _ :: _, [], _, h1, _ => by simp [charListLe] at h1
  | _ :: _, _ :: _, [], _, h2 => by simp [charListLe] at h2
  | a :: as, b :: bs, c :: cs, h1, h2 => by
    rcases lt_trichotomy a b with hab | hab | hab
    · rcases lt_trichotomy b c with hbc | hbc | hbc
      · simp [charListLe, lt_trans hab hbc]
      · subst hbc; simp [charListLe, hab]
      · simp [charListLe, asymm hbc, hbc] at h2
    · subst hab
      rcases lt_trichotomy a c with hac | hac | hac
      · simp [charListLe, hac]
      · subst hac
        simp [charListLe, lt_irrefl] at h1 h2 ⊢
        exact charListLe_trans as bs cs h1 h2
      · simp [charListLe, asymm hac, hac] at h2
    · simp [charListLe, asymm hab, hab] at h1

theorem pyLe_refl (s : String) : pyLe s s := charListLe_refl s.data

theorem pyLe_getLast_of_sorted :
    ∀ (l : List String), List.Sorted pyLe l → ∀ (hne : l ≠ []) (a : String), a ∈ l →
      pyLe a (l.getLast hne)
  | [], _, hne, _, _ => absurd rfl hne
  | [x], _, _, a, ha => by
    simp only [List.mem_singleton] at ha
    subst ha
    exact pyLe_refl a
  | x :: y :: ys, hs, _, a, ha => by
    rcases List.mem_cons.mp ha with rfl | ha'
    · exact List.rel_of_sorted_cons hs _ (List.getLast_mem _)
    · rw [List.getLast_cons (List.cons_ne_nil y ys)]
      exact pyLe_getLast_of_sorted (y :: ys) hs.of_cons (List.cons_ne_nil y ys) a ha'

/-! ## Properties of `splitOnChar` and Python `int` -/

theorem splitOnChar_ne_nil (sep : Char) : ∀ cs, splitOnChar sep cs ≠ []
  | [] => by simp [splitOnChar]
  | c :: cs => by
    by_cases hc : c = sep
    · simp [splitOnChar, hc]
    · simp only [splitOnChar, if_neg hc]
      cases h : splitOnChar sep cs <;> simp

theorem splitOnChar_not_mem (sep : Char) : ∀ cs, sep ∉ cs → splitOnChar sep cs = [cs]
  | [], _ => rfl
  | c :: cs, h => by
    have hc : ¬ c = sep := fun he => h (he ▸ List.mem_cons_self c cs)
    have hcs : sep ∉ cs := fun hm => h (List.mem_cons_of_mem c hm)
    simp [splitOnChar, hc, splitOnChar_not_mem sep cs hcs]

theorem splitOnChar_mem_length (sep : Char) : ∀ cs, sep ∈ cs → 2 ≤ (splitOnChar sep cs).length
  | c :: cs, hm => by
    by_cases hc : c = sep
    · simp only [splitOnChar, if_pos hc, List.length_cons]
      have h1 : 1 ≤ (splitOnChar sep cs).length :=
        List.length_pos.mpr (splitOnChar_ne_nil sep cs)
      omega
    · have hm' : sep ∈ cs := by
        rcases List.mem_cons.mp hm with h | h
        · exact absurd h.symm hc
        · exact h
      have ih := splitOnChar_mem_length sep cs hm'
      simp only [splitOnChar, if_neg hc]
      rcases hS : splitOnChar sep cs with _ | ⟨g, gs⟩
      · exact absurd hS (splitOnChar_ne_nil sep cs)
      · rw [hS] at ih
        simpa using ih

theorem splitOnChar_getLast? (sep : Char) :
    ∀ pre rest, sep ∉ rest →
      (splitOnChar sep (pre ++ sep :: rest)).getLast? = some rest
  | [], rest, h => by
    simp only [List.nil_append, splitOnChar, if_pos rfl]
    rw [splitOnChar_not_mem sep rest h]
    rfl
  | c :: pre, rest, h => by
    have ih := splitOnChar_getLast? sep pre rest h
    have hne := splitOnChar_ne_nil sep (pre ++ sep :: rest)
    obtain ⟨g, gs, hS⟩ := List.exists_cons_of_ne_nil hne
    by_cases hc : c = sep
    · simp only [List.cons_append, splitOnChar, if_pos hc, List.append_eq]
      rw [hS, List.getLast?_cons_cons, ← hS]
      exact ih
    · simp only [List.cons_append, splitOnChar, if_neg hc, List.append_eq]
      rw [hS]
      rcases gs with _ | ⟨g2, gs2⟩
      · have h2 := splitOnChar_mem_length sep (pre ++ sep :: rest)
          (List.mem_append_right pre (List.mem_cons_self sep rest))
        rw [hS] at h2
        simp at h2
      · rw [List.getLast?_cons_cons]
        rw [hS, List.getLast?_cons_cons] at ih
        exact ih

theorem splitOnChar_head? (sep : Char) :
    ∀ pre rest, sep ∉ pre →
      (splitOnChar sep (pre ++ sep :: rest)).head? = some pre
  | [], rest, _ => by
    simp [splitOnChar]
  | c :: pre, rest, h => by
    have hc : ¬ c = sep := fun he => h (he ▸ List.mem_cons_self c pre)
    have hpre : sep ∉ pre := fun hm => h (List.mem_cons_of_mem c hm)
    have ih := splitOnChar_head? sep pre rest hpre
    have hne := splitOnChar_ne_nil sep (pre ++ sep :: rest)
    obtain ⟨g, gs, hS⟩ := List.exists_cons_of_ne_nil hne
    simp only [List.cons_append, splitOnChar, if_neg hc, List.append_eq]
    rw [hS]
    rw [hS] at ih
    simp only [List.head?_cons, Option.some.injEq] at ih ⊢
    rw [ih]

theorem pyIsSpace_of_digit {c : Char} (h : c.isDigit = true) : pyIsSpace c = false := by
  have h1 : ¬ c = ' ' := by rintro rfl; exact absurd h (by decide)
  have h2 : ¬ c = '\t' := by rintro rfl; exact absurd h (by decide)
  have h3 : ¬ c = '\n' := by rintro rfl; exact absurd h (by decide)
  have h4 : ¬ c = '\r' := by rintro rfl; exact absurd h (by decide)
  have h5 : ¬ c = '\x0b' := by rintro rfl; exact absurd h (by decide)
  have h6 : ¬ c = '\x0c' := by rintro rfl; exact absurd h (by decide)
  simp [pyIsSpace, h1, h2, h3, h4, h5, h6]

theorem dropWhile_space_of_digits :
    ∀ cs : List Char, (∀ c ∈ cs, c.isDigit = true) → cs.dropWhile pyIsSpace = cs
  | [], _ => rfl
  | c :: cs, h => by
    have hc := pyIsSpace_of_digit (h c (List.mem_cons_self c cs))
    simp [List.dropWhile_cons, hc]

theorem pyStrip_of_digits (cs : List Char) (h : ∀ c ∈ cs, c.isDigit = true) :
    pyStrip cs = cs := by
  unfold pyStrip
  rw [dropWhile_space_of_digits cs h]
  rw [dropWhile_space_of_digits cs.reverse (fun c hc => h c (List.mem_reverse.mp hc))]
  exact List.reverse_reverse cs

theorem pyDigitsCore_of_digits :
    ∀ cs : List Char, (∀ c ∈ cs, c.isDigit = true) → pyDigitsCore cs = true
  | [], _ => rfl
  | c :: cs, h => by
    have hc := h c (List.mem_cons_self c cs)
    have hne : ¬ c = '_' := by
      rintro rfl
      exact absurd hc (by decide)
    unfold pyDigitsCore
    rw [if_neg hne]
    simp [hc, pyDigitsCore_of_digits cs (fun x hx => h x (List.mem_cons_of_mem c hx))]

theorem pyIntChars_digits (cs : List Char) (hne : cs ≠ [])
    (h : ∀ c ∈ cs, c.isDigit = true) :
    pyIntChars cs = some ((natOfDigits cs : Int)) := by
  obtain ⟨d, ds, rfl⟩ := List.exists_cons_of_ne_nil hne
  have hd := h d (List.mem_cons_self d ds)
  have hplus : ¬ d = '+' := by rintro rfl; exact absurd hd (by decide)
  have hminus : ¬ d = '-' := by rintro rfl; exact absurd hd (by decide)
  have hok : pyDigitsOk (d :: ds) = true := by
    simp [pyDigitsOk, hd,
      pyDigitsCore_of_digits ds (fun x hx => h x (List.mem_cons_of_mem d hx))]
  have hfilter : (d :: ds).filter Char.isDigit = d :: ds := List.filter_eq_self.mpr h
  unfold pyIntChars
  rw [pyStrip_of_digits (d :: ds) h]
  simp [hplus, hminus, hok, hfilter]

/-! ## Properties of the aggregation loop -/

theorem processSubtask_fields (fs : SiteFS) (task sid sub : String) (r : TaskResults)
    (h : processSubtask fs task sid sub = .ok r) :
    r.subtask = sub ∧ r.site_id = sid ∧ r.task = task := by
  simp only [processSubtask] at h
  split at h
  · exact Except.noConfusion h
  · split at h
    · exact Except.noConfusion h
    · split at h
      · exact Except.noConfusion h
      · split at h
        · exact Except.noConfusion h
        · cases Except.ok.inj h
          exact ⟨rfl, rfl, rfl⟩

theorem processSubtask_empty (fs : SiteFS) (task sid sub : String)
    (h : fs.glob (globPattern sub) = []) :
    processSubtask fs task sid sub = .error ("No logs found for " ++ sub) := by
  simp [processSubtask, h]

theorem mapResults_map_subtask (f : String → Except String TaskResults)
    (hf : ∀ s r, f s = .ok r → r.subtask = s) :
    ∀ (l : List String) (rs : List TaskResults), mapResults f l = .ok rs →
      rs.map TaskResults.subtask = l
  | [], rs, h => by
    cases Except.ok.inj h
    rfl
  | s :: rest, rs, h => by
    unfold mapResults at h
    split at h
    · exact Except.noConfusion h
    · next r hr =>
      split at h
      · exact Except.noConfusion h
      · next rs2 hrs2 =>
        cases Except.ok.inj h
        simp [hf s r hr, mapResults_map_subtask f hf rest rs2 hrs2]

theorem mapResults_err (f : String → Except String TaskResults) :
    ∀ (l : List String) (s : String), s ∈ l → isErr (f s) = true →
      isErr (mapResults f l) = true
  | a :: rest, s, hs, herr => by
    unfold mapResults
    rcases hfa : f a with e | r
    · simp [isErr]
    · rcases List.mem_cons.mp hs with rfl | hs'
      · rw [hfa] at herr
        simp [isErr] at herr
      · have hrec := mapResults_err f rest s hs' herr
        rcases hmr : mapResults f rest with e | rs
        · simp [isErr]
        · rw [hmr] at hrec
          simp [isErr] at hrec

theorem mapResults_mem (f : String → Except String TaskResults) :
    ∀ (l : List String) (rs : List TaskResults), mapResults f l = .ok rs →
      ∀ r ∈ rs, ∃ s ∈ l, f s = .ok r
  | [], rs, h => by
    cases Except.ok.inj h
    intro r hr
    exact absurd hr (List.not_mem_nil r)
  | a :: rest, rs, h => by
    unfold mapResults at h
    split at h
    · exact Except.noConfusion h
    · next r hr =>
      split at h
      · exact Except.noConfusion h
      · next rs2 hrs2 =>
        cases Except.ok.inj h
        intro x hx
        rcases List.mem_cons.mp hx with rfl | hx'
        · exact ⟨a, List.mem_cons_self a rest, hr⟩
        · obtain ⟨s, hs, hok⟩ := mapResults_mem f rest rs2 hrs2 x hx'
          exact ⟨s, List.mem_cons_of_mem a hs, hok⟩

/-! ## The claims -/

/-- C1: For every log file, `get_runtime` returns a zero duration when no
line contains the substring "Current time", and otherwise returns the
difference (last minus first) of the time-of-day values parsed as HH:MM:SS
from the third whitespace-delimited token of the first and of the last
matching line, with no day-rollover correction, so the result may be
negative when the last time-of-day precedes the first. -/
theorem runtime_spec :
    (∀ lines : List String,
        lines.filter (fun l => containsSubstr l "Current time") = [] →
        get_runtime lines = .ok 0) ∧
    (∀ (lines : List String) (f : String) (rest : List String) (t1 t2 : Nat),
        lines.filter (fun l => containsSubstr l "Current time") = f :: rest →
        (thirdToken f).bind parseHMS = some t1 →
        (thirdToken ((f :: rest).getLast (List.cons_ne_nil f rest))).bind parseHMS = some t2 →
        get_runtime lines = .ok ((t2 : Int) - (t1 : Int))) ∧
    get_runtime ["Current time: 10:00:00", "Current time: 11:30:00"] = .ok 5400 ∧
    get_runtime ["Current time: 23:00:00", "Current time: 01:00:00"] = .ok (-79200) := by
  refine ⟨?_, ?_, by rfl, by rfl⟩
  · intro lines h
    unfold get_runtime
    rw [h]
  · intro lines f rest t1 t2 hf h1 h2
    obtain ⟨ftok, hft, hp1⟩ := Option.bind_eq_some.mp h1
    obtain ⟨ltok, hlt, hp2⟩ := Option.bind_eq_some.mp h2
    unfold get_runtime
    rw [hf]
    simp only [hft, hlt, hp1, hp2]

/-- Witness for C1 at a concrete log. -/
theorem runtime_spec_witness :
    get_runtime ["Current time: 10:00:00", "x", "Current time: 11:30:00"] = .ok 5400 :=
  runtime_spec.2.1 ["Current time: 10:00:00", "x", "Current time: 11:30:00"]
    "Current time: 10:00:00" ["Current time: 11:30:00"] 36000 41400
    (by decide) (by decide) (by decide)

/-- C2: For every log file, `get_error` returns "Empty log file" when the
file has zero lines; otherwise "Python Error" when some line contains
"ERROR:" or "Traceback"; otherwise "Pipeline Rejected" when some line
contains "Exiting, please requeue"; otherwise `none` (rendered by the caller
as "No errors"). A file containing both markers classifies as
"Python Error": exception markers take fixed priority. -/
theorem error_classification_spec :
    get_error [] = some "Empty log file" ∧
    (∀ lines : List String, lines ≠ [] →
        (∃ l ∈ lines, containsSubstr l "ERROR:" = true ∨ containsSubstr l "Traceback" = true) →
        get_error lines = some "Python Error") ∧
    (∀ lines : List String, lines ≠ [] →
        (∀ l ∈ lines, containsSubstr l "ERROR:" = false ∧ containsSubstr l "Traceback" = false) →
        (∃ l ∈ lines, containsSubstr l "Exiting, please requeue" = true) →
        get_error lines = some "Pipeline Rejected") ∧
    (∀ lines : List String, lines ≠ [] →
        (∀ l ∈ lines, containsSubstr l "ERROR:" = false ∧ containsSubstr l "Traceback" = false ∧
          containsSubstr l "Exiting, please requeue" = false) →
        get_error lines = none) ∧
    get_error ["ERROR: x", "Exiting, please requeue"] = some "Python Error" := by
  refine ⟨by rfl, ?_, ?_, ?_, by rfl⟩
  · rintro lines hne ⟨l, hl, hor⟩
    have hp : (containsSubstr l "ERROR:" || containsSubstr l "Traceback") = true := by
      rcases hor with h | h <;> simp [h]
    have hmem : l ∈ lines.filter
        (fun l => containsSubstr l "ERROR:" || containsSubstr l "Traceback") :=
      List.mem_filter.mpr ⟨hl, hp⟩
    have hpos := List.length_pos.mpr (List.ne_nil_of_mem hmem)
    have hlen : lines.length ≠ 0 := by
      simpa [List.length_eq_zero] using hne
    simp [get_error, hlen, hpos]
  · rintro lines hne hnoerr ⟨l, hl, hrej⟩
    have hfe : lines.filter
        (fun l => containsSubstr l "ERROR:" || containsSubstr l "Traceback") = [] := by
      apply List.filter_eq_nil_iff.mpr
      intro a ha
      have hh := hnoerr a ha
      simp [hh.1, hh.2]
    have hmem : l ∈ lines.filter (fun l => containsSubstr l "Exiting, please requeue") :=
      List.mem_filter.mpr ⟨hl, hrej⟩
    have hpos := List.length_pos.mpr (List.ne_nil_of_mem hmem)
    have hlen : lines.length ≠ 0 := by
      simpa [List.length_eq_zero] using hne
    simp [get_error, hlen, hfe, hpos]
  · intro lines hne hnone
    have hfe : lines.filter
        (fun l => containsSubstr l "ERROR:" || containsSubstr l "Traceback") = [] := by
      apply List.filter_eq_nil_iff.mpr
      intro a ha
      have hh := hnone a ha
      simp [hh.1, hh.2.1]
    have hfr : lines.filter (fun l => containsSubstr l "Exiting, please requeue") = [] := by
      apply List.filter_eq_nil_iff.mpr
      intro a ha
      simp [(hnone a ha).2.2]
    have hlen : lines.length ≠ 0 := by
      simpa [List.length_eq_zero] using hne
    simp [get_error, hlen, hfe, hfr]

/-- Witness for C2 at a concrete log. -/
theorem error_classification_spec_witness :
    get_error ["all good", "Exiting, please requeue"] = some "Pipeline Rejected" :=
  error_classification_spec.2.2.1 ["all good", "Exiting, please requeue"]
    (by decide) (by decide) ⟨"Exiting, please requeue", by decide, by decide⟩

/-- C3: For every non-empty list of candidate file paths,
`get_most_recent_file` returns the single path that sorts last under
ordinary lexicographic ordering of the path string; on the non-zero-padded
input it returns "a_50.txt", and on the zero-padded input it returns
"a_0000000200.txt". -/
theorem most_recent_file_spec :
    (∀ files : List String, files ≠ [] →
        ∃ m, get_most_recent_file files = .ok m ∧ m ∈ files ∧ ∀ f ∈ files, pyLe f m) ∧
    get_most_recent_file ["a_100.txt", "a_200.txt", "a_50.txt"] = .ok "a_50.txt" ∧
    get_most_recent_file ["a_0000000050.txt", "a_0000000100.txt", "a_0000000200.txt"] =
      .ok "a_0000000200.txt" := by
  refine ⟨?_, by rfl, by rfl⟩
  intro files hne
  haveI : IsTotal String pyLe := ⟨fun a b => charListLe_total a.data b.data⟩
  haveI : IsTrans String pyLe := ⟨fun a b c => charListLe_trans a.data b.data c.data⟩
  have hperm := List.perm_insertionSort pyLe files
  have hsne : List.insertionSort pyLe files ≠ [] := by
    intro h
    exact hne (List.Perm.eq_nil ((h ▸ hperm).symm))
  refine ⟨(List.insertionSort pyLe files).getLast hsne, ?_, ?_, ?_⟩
  · simp [get_most_recent_file, List.getLast?_eq_getLast _ hsne]
  · exact hperm.mem_iff.mp (List.getLast_mem hsne)
  · intro f hf
    exact pyLe_getLast_of_sorted _ (List.sorted_insertionSort pyLe files) hsne f
      (hperm.mem_iff.mpr hf)

/-- Witness for C3 at a concrete candidate list. -/
theorem most_recent_file_spec_witness :
    ∃ m, get_most_recent_file ["a_100.txt", "a_200.txt", "a_50.txt"] = .ok m ∧
      m ∈ ["a_100.txt", "a_200.txt", "a_50.txt"] ∧
      ∀ f ∈ ["a_100.txt", "a_200.txt", "a_50.txt"], pyLe f m :=
  most_recent_file_spec.1 ["a_100.txt", "a_200.txt", "a_50.txt"] (by decide)

/-- C4: For every site and recognized task category, `track_site_logs`
either produces exactly one `TaskResults` for each required subtask of that
category, or raises an error aborting the whole site's tracking pass; a
subtask with zero files matching `{subtask}_*.txt` (brace-free rendering:
subtask followed by "_*.txt") raises an error and is never silently skipped
or reported partially. -/
theorem track_site_logs_total_spec :
    (∀ (fs : SiteFS) (task site : String) (rs : List TaskResults),
        track_site_logs fs task site = .ok rs →
        ∃ st, requiredSubtasks task = some st ∧ rs.map TaskResults.subtask = st) ∧
    (∀ (fs : SiteFS) (task site : String) (st : List String) (sub : String),
        requiredSubtasks task = some st → sub ∈ st →
        fs.glob (globPattern sub) = [] →
        isErr (track_site_logs fs task site) = true) := by
  constructor
  · intro fs task site rs h
    unfold track_site_logs at h
    split at h
    · exact Except.noConfusion h
    · next st hst =>
      exact ⟨st, hst,
        mapResults_map_subtask _ (fun s r hr => (processSubtask_fields _ _ _ _ _ hr).1)
          st rs h⟩
  · intro fs task site st sub hst hsub hglob
    unfold track_site_logs
    rw [hst]
    exact mapResults_err _ st sub hsub
      (by rw [processSubtask_empty fs task _ sub hglob]; rfl)

/-- Witness for C4: a file system with one log per subtask yields one
result per subtask; one with no logs at all makes the pass fail. -/
theorem track_site_logs_total_spec_witness :
    (∃ st, requiredSubtasks "offsite" = some st ∧
      ([⟨"offsite", "audio_process", "LA", 0, "Empty log file", 100, ""⟩,
        ⟨"offsite", "transcript_process", "LA", 0, "Empty log file", 100, ""⟩,
        ⟨"offsite", "video_process", "LA", 0, "Empty log file", 100, ""⟩] :
          List TaskResults).map TaskResults.subtask = st) ∧
    isErr (track_site_logs ⟨fun _ => [], fun _ => []⟩ "offsite" "PronetLA") = true :=
  ⟨track_site_logs_total_spec.1
      ⟨fun p => [String.mk (p.data.takeWhile (fun c => c ≠ '*')) ++ "100.txt"], fun _ => []⟩
      "offsite" "PronetLA" _ (by rfl),
    track_site_logs_total_spec.2 ⟨fun _ => [], fun _ => []⟩ "offsite" "PronetLA"
      offsite_subtasks "audio_process" rfl (by decide) rfl⟩

/-- C5: For every file whose name has the form x_N.ext with N the decimal
digits between the last underscore and the extension,
`get_datetime_from_filename` returns the exact local datetime corresponding
to Unix epoch second N (modelled by the epoch second); if that segment is
not a valid integer it raises a parsing error that is not caught internally
and propagates to the caller. -/
theorem datetime_from_filename_spec :
    (∀ pre digits ext : List Char,
        digits ≠ [] → (∀ c ∈ digits, c.isDigit = true) →
        '/' ∉ pre → '_' ∉ ext → '/' ∉ ext →
        get_datetime_from_filename (String.mk (pre ++ '_' :: (digits ++ '.' :: ext))) =
          .ok ((natOfDigits digits : Int))) ∧
    (∀ file : String, pyIntChars (timestampSegment file) = none →
        get_datetime_from_filename file = .error "ValueError") ∧
    get_datetime_from_filename "file_1703230348.txt" = .ok 1703230348 := by
  refine ⟨?_, ?_, by rfl⟩
  · intro pre digits ext hne hdig hsp hue hse
    have hdigc : ∀ c, c ∈ digits → ¬ c = '/' ∧ ¬ c = '_' ∧ ¬ c = '.' := by
      intro c hc
      have hd := hdig c hc
      refine ⟨?_, ?_, ?_⟩ <;> rintro rfl <;> exact absurd hd (by decide)
    have hsfull : '/' ∉ pre ++ '_' :: (digits ++ '.' :: ext) := by
      intro hm
      rcases List.mem_append.mp hm with hm | hm
      · exact hsp hm
      · rcases List.mem_cons.mp hm with he | hm
        · exact absurd he (by decide)
        · rcases List.mem_append.mp hm with hm | hm
          · exact (hdigc _ hm).1 rfl
          · rcases List.mem_cons.mp hm with he | hm
            · exact absurd he (by decide)
            · exact hse hm
    have hurest : '_' ∉ digits ++ '.' :: ext := by
      intro hm
      rcases List.mem_append.mp hm with hm | hm
      · exact (hdigc _ hm).2.1 rfl
      · rcases List.mem_cons.mp hm with he | hm
        · exact absurd he (by decide)
        · exact hue hm
    have hddig : '.' ∉ digits := fun hm => (hdigc _ hm).2.2 rfl
    have hseg : timestampSegment (String.mk (pre ++ '_' :: (digits ++ '.' :: ext))) =
        digits := by
      simp only [timestampSegment]
      rw [splitOnChar_not_mem '/' _ hsfull]
      rw [show ([pre ++ '_' :: (digits ++ '.' :: ext)] : List (List Char)).getLastD [] =
            pre ++ '_' :: (digits ++ '.' :: ext) from rfl]
      rw [List.getLastD_eq_getLast?, splitOnChar_getLast? '_' pre _ hurest]
      rw [show (some (digits ++ '.' :: ext)).getD ([] : List Char) =
            digits ++ '.' :: ext from rfl]
      rw [List.headD_eq_head?, splitOnChar_head? '.' digits ext hddig]
      rfl
    unfold get_datetime_from_filename
    rw [hseg, pyIntChars_digits digits hne hdig]
  · intro file h
    unfold get_datetime_from_filename
    rw [h]

/-- Witness for C5 at a concrete filename. -/
theorem datetime_from_filename_spec_witness :
    get_datetime_from_filename
        (String.mk (['f', 'i', 'l', 'e'] ++ '_' :: (['1', '0', '0'] ++ '.' :: ['t', 'x', 't']))) =
      .ok ((natOfDigits ['1', '0', '0'] : Int)) :=
  datetime_from_filename_spec.1 ['f', 'i', 'l', 'e'] ['1', '0', '0'] ['t', 'x', 't']
    (by decide) (by decide) (by decide) (by decide) (by decide)

/-- C6: `check_if_within_threshold` returns `true` (healthy, no alert)
exactly when `now - last_run` is strictly less than the threshold of T
hours, and `false` otherwise; a difference of 5:59:59 with T = 6 is within
threshold, 6:00:01 is overdue, and exactly T hours is overdue. -/
theorem within_threshold_spec :
    (∀ threshold now last_run : Int,
        check_if_within_threshold threshold now last_run = true ↔
          now - last_run < threshold * 3600) ∧
    check_if_within_threshold 6 21599 0 = true ∧
    check_if_within_threshold 6 21600 0 = false ∧
    check_if_within_threshold 6 21601 0 = false := by
  refine ⟨?_, by rfl, by rfl, by rfl⟩
  intro t n l
  by_cases h : n - l < t * 3600 <;> simp [check_if_within_threshold, h]

/-- C7: `track_site_logs` enumerates exactly the subtask list
["audio_process", "transcript_process", "video_process"] for task
"offsite", exactly ["audio_process", "transcript_process"] for
"daily_journal", and raises an error for every other task value. -/
theorem subtask_enumeration_spec :
    requiredSubtasks "offsite" = some ["audio_process", "transcript_process", "video_process"] ∧
    requiredSubtasks "daily_journal" = some ["audio_process", "transcript_process"] ∧
    (∀ (fs : SiteFS) (site : String), track_site_logs fs "offsite" site =
        mapResults (processSubtask fs "offsite" (lastTwo site))
          ["audio_process", "transcript_process", "video_process"]) ∧
    (∀ (fs : SiteFS) (site : String), track_site_logs fs "daily_journal" site =
        mapResults (processSubtask fs "daily_journal" (lastTwo site))
          ["audio_process", "transcript_process"]) ∧
    (∀ t : String, t ≠ "offsite" → t ≠ "daily_journal" → ∀ (fs : SiteFS) (site : String),
        track_site_logs fs t site = .error ("Invalid task: " ++ t)) := by
  refine ⟨rfl, rfl, fun fs site => rfl, fun fs site => rfl, ?_⟩
  intro t h1 h2 fs site
  unfold track_site_logs requiredSubtasks
  simp [h1, h2]

/-- Witness for C7 at a concrete unrecognized task. -/
theorem subtask_enumeration_spec_witness :
    track_site_logs ⟨fun _ => [], fun _ => []⟩ "transcribe" "PronetLA" =
      .error ("Invalid task: " ++ "transcribe") :=
  subtask_enumeration_spec.2.2.2.2 "transcribe" (by decide) (by decide)
    ⟨fun _ => [], fun _ => []⟩ "PronetLA"

/-- C8: `log_to_sheet` selects the subtask-to-column-offset table solely
from the enclosing-scope `task` variable, never from a record's own `task`
attribute: records identical except for their `task` field produce
identical cell writes, and the unknown-category error depends only on the
ambient `task` value. -/
theorem log_to_sheet_ambient_task_spec :
    (∀ (rowOf : String → Nat) (task : String) (f : TaskResults → String)
        (rs : List TaskResults),
        log_to_sheet rowOf task (rs.map (fun r => { r with task := f r })) =
          log_to_sheet rowOf task rs) ∧
    (∀ (rowOf : String → Nat) (t : String) (r : TaskResults),
        t ≠ "offsite" → t ≠ "daily_journal" →
        log_to_sheet rowOf t [r] = .error ("Task: " ++ t ++ " not implemented")) := by
  constructor
  · intro rowOf task f rs
    induction rs with
    | nil => rfl
    | cons r rest ih =>
      simp only [List.map_cons]
      unfold log_to_sheet
      rw [ih]
  · intro rowOf t r h1 h2
    unfold log_to_sheet subtaskColIdx
    simp [h1, h2]

/-- Witness for C8 at a concrete record and unknown ambient task. -/
theorem log_to_sheet_ambient_task_spec_witness :
    log_to_sheet (fun _ => 1) "bogus"
        [⟨"offsite", "audio_process", "LA", 0, "No errors", 100, ""⟩] =
      .error ("Task: " ++ "bogus" ++ " not implemented") :=
  log_to_sheet_ambient_task_spec.2 (fun _ => 1) "bogus"
    ⟨"offsite", "audio_process", "LA", 0, "No errors", 100, ""⟩ (by decide) (by decide)

/-- C9: For some log file containing a line with "Current time",
`get_runtime` raises an uncaught exception instead of returning a duration:
whenever the first or last matching line has fewer than three
whitespace-delimited tokens (IndexError) or its third token does not parse
as %H:%M:%S (ValueError); the zero-duration fallback covers only the
zero-matching-lines case. -/
theorem runtime_error_spec :
    (∀ (lines : List String) (f : String) (rest : List String),
        lines.filter (fun l => containsSubstr l "Current time") = f :: rest →
        (thirdToken f).bind parseHMS = none →
        isErr (get_runtime lines) = true) ∧
    (∀ (lines : List String) (f : String) (rest : List String),
        lines.filter (fun l => containsSubstr l "Current time") = f :: rest →
        (thirdToken ((f :: rest).getLast (List.cons_ne_nil f rest))).bind parseHMS = none →
        isErr (get_runtime lines) = true) ∧
    get_runtime ["Current time"] = .error "IndexError" ∧
    get_runtime ["Current time: 10:00"] = .error "ValueError" := by
  refine ⟨?_, ?_, by rfl, by rfl⟩
  · intro lines f rest hf h
    unfold get_runtime
    rw [hf]
    rcases hft : thirdToken f with _ | ftok
    · simp [isErr, hft]
    · rw [hft] at h
      simp only [Option.some_bind] at h
      rcases hlt : thirdToken ((f :: rest).getLast (List.cons_ne_nil f rest)) with _ | ltok
      · simp [isErr, hft, hlt]
      · simp [isErr, hft, hlt, h]
  · intro lines f rest hf h
    unfold get_runtime
    rw [hf]
    rcases hft : thirdToken f with _ | ftok
    · simp [isErr, hft]
    · rcases hlt : thirdToken ((f :: rest).getLast (List.cons_ne_nil f rest)) with _ | ltok
      · simp [isErr, hft, hlt]
      · rw [hlt] at h
        simp only [Option.some_bind] at h
        rcases hp1 : parseHMS ftok with _ | t1
        · simp [isErr, hft, hlt, hp1]
        · simp [isErr, hft, hlt, hp1, h]

/-- Witness for C9 at a concrete malformed log line. -/
theorem runtime_error_spec_witness :
    isErr (get_runtime ["Current time"]) = true :=
  runtime_error_spec.1 ["Current time"] "Current time" [] (by decide) (by decide)

/-- C10: The site identifier stored in each `TaskResults`, later used for
the spreadsheet row lookup, is exactly the last two characters of the site
directory's name (the whole name when it is shorter than two characters),
never the full directory name. -/
theorem site_id_spec :
    (∀ (fs : SiteFS) (task site : String) (rs : List TaskResults),
        track_site_logs fs task site = .ok rs → ∀ r ∈ rs, r.site_id = lastTwo site) ∧
    (∀ s : String, s.data.length ≤ 2 → lastTwo s = s) ∧
    (∀ s : String, 2 ≤ s.data.length →
        (lastTwo s).data.length = 2 ∧ ∃ pre, s.data = pre ++ (lastTwo s).data) ∧
    lastTwo "PronetLA" = "LA" := by
  refine ⟨?_, ?_, ?_, by rfl⟩
  · intro fs task site rs h r hr
    unfold track_site_logs at h
    split at h
    · exact Except.noConfusion h
    · obtain ⟨s, hs, hok⟩ := mapResults_mem _ _ _ h r hr
      exact (processSubtask_fields _ _ _ _ _ hok).2.1
  · intro s h
    rcases s with ⟨data⟩
    unfold lastTwo
    rw [Nat.sub_eq_zero_of_le h, List.drop_zero]
  · intro s h
    refine ⟨?_, s.data.take (s.data.length - 2), ?_⟩
    · unfold lastTwo
      simp only [List.length_drop]
      omega
    · simp [lastTwo, List.take_append_drop]

/-- Witness for C10 at a concrete site directory name. -/
theorem site_id_spec_witness :
    (⟨"offsite", "audio_process", "LA", 0, "Empty log file", 100, ""⟩ : TaskResults).site_id =
      lastTwo "PronetLA" :=
  site_id_spec.1
    ⟨fun p => [String.mk (p.data.takeWhile (fun c => c ≠ '*')) ++ "100.txt"], fun _ => []⟩
    "offsite" "PronetLA"
    [⟨"offsite", "audio_process", "LA", 0, "Empty log file", 100, ""⟩,
     ⟨"offsite", "transcript_process", "LA", 0, "Empty log file", 100, ""⟩,
     ⟨"offsite", "video_process", "LA", 0, "Empty log file", 100, ""⟩]
    (by rfl) _ (by decide)

end Tracker
